import Mathlib

/-!
Verification development for the audio-healing script of the TTS_epub_reader
repository (src/audio_healing.py).

Audio model: pydub exposes a track as a sequence of millisecond slices, and the
script only ever inspects a slice through the comparison
`segment[i:i+1].dBFS < -60` (the fixed silence threshold).  We therefore embed a
track as `List Bool`, one element per millisecond, where `true` means the
millisecond is loud (dBFS at or above -60) and `false` means it is silent
(below -60).  An empty slice (index beyond the track) has dBFS -inf, i.e. it is
silent; the scan embeddings reproduce that behaviour explicitly.  Slicing and
concatenation of AudioSegments become `List.take`/`List.drop`/`++`, and
`AudioSegment.silent(d)` becomes `List.replicate d false`.

Python integer arithmetic is embedded as `Int` with floor division
(`Int.ediv`/`Int.emod`, which agree with Python's `//` and `%` for positive
divisors).  CPython floats are IEEE binary64; where the script does float
arithmetic (`timestamp_to_milliseconds`) we embed the values as exact rationals
together with an explicit round-to-nearest-even at 53 significant bits, which
is exact for every value reached in this development (all are normal, far from
overflow).
-/

/-- Number of leading silent milliseconds of a clip: the embedding of the
forward `while ... dBFS < silence_threshold` scan that starts at index 0. -/
def leadingSilenceLen (l : List Bool) : Nat :=
  (l.takeWhile (fun b => !b)).length

/-- Number of trailing silent milliseconds of a clip: the embedding of the
backward `while ... dBFS < silence_threshold` scan that starts at the end. -/
def trailingSilenceLen (l : List Bool) : Nat :=
  leadingSilenceLen l.reverse

/-- Forward scan from `i` while the track is silent: returns the first index at
or after `i` holding a loud millisecond, or stops at the track end (the loop
condition `pos < len(track)` is checked first, so the scan never runs past the
end).  Embeds the first loop of `find_start_splice_point`. -/
def fwdScanSilent (track : List Bool) (i : Nat) : Nat :=
  i + ((track.drop i).takeWhile (fun b => !b)).length

/-- Backward scan from `i` while the track is loud: returns the least index `j`
such that every millisecond in `[j, i)` is loud.  An index at or beyond the
track end reads as an empty slice, whose dBFS is -inf (silent), so the loop
stops immediately there.  Embeds the second loop of `find_start_splice_point`. -/
def backScanLoud (track : List Bool) (i : Nat) : Nat :=
  if track.length < i then i
  else i - (((track.take i).reverse).takeWhile (fun b => b)).length

/-- Backward scan from `i` while the track is silent.  Indices at or beyond the
track end read as silent (empty slice, dBFS -inf), which the embedding realises
by padding the track with virtual silence up to `i`.  Embeds the first loop of
`find_end_splice_point`. -/
def backScanSilent (track : List Bool) (i : Nat) : Nat :=
  i - ((((track ++ List.replicate (i - track.length) false).take i).reverse).takeWhile
        (fun b => !b)).length

/-- Forward scan from `i` while the track is loud (condition `pos < len(track)`
checked first).  Embeds the second loop of `find_end_splice_point`. -/
def fwdScanLoud (track : List Bool) (i : Nat) : Nat :=
  i + ((track.drop i).takeWhile (fun b => b)).length

/-- Embedding of `find_start_splice_point`: forward scan to the first loud
millisecond at or after `start_time`, then backward over the loud run, then
midpoint and half length with Python `//`. -/
def find_start_splice_point (track : List Bool) (start_time : Nat) : Nat × Nat :=
  let after := fwdScanSilent track start_time
  let before := backScanLoud track after
  ((before + after) / 2, (after - before) / 2)

/-- Embedding of `find_end_splice_point`: `None` end time yields `(None, None)`;
otherwise backward scan over silence from `end_time`, then forward over the
loud run, then midpoint and half length. -/
def find_end_splice_point (track : List Bool) (end_time : Option Nat) :
    Option Nat × Option Nat :=
  match end_time with
  | none => (none, none)
  | some e =>
    let after := backScanSilent track e
    let before := fwdScanLoud track after
    (some ((before + after) / 2), some ((before - after) / 2))

/-- Python index clamping for a slice bound on a sequence of length `n`:
negative indices count from the end, out-of-range indices clamp. -/
def pyIdx (n : Nat) (i : Int) : Nat :=
  if i < 0 then n - (-i).toNat else min i.toNat n

/-- Python slice `l[:b]`. -/
def pySliceTo (l : List Bool) (b : Int) : List Bool :=
  l.take (pyIdx l.length b)

/-- Python slice `l[a:]`. -/
def pySliceFrom (l : List Bool) (a : Int) : List Bool :=
  l.drop (pyIdx l.length a)

/-- One lyric-store record, the embedding of the dict values of the script:
`original` is the recognised line text, `newText` the dict key "new",
`ssml` the markup document, `end_time` the effective end time (absent key and
Python `None` both embed to `none`), the four splice fields are the
`find_*_splice_point` outputs, `ready_to_splice` the aligned replacement clip
and `new_lyric_start` the recorded new start position. -/
structure LineContent where
  original : String := ""
  newText : String := ""
  ssml : String := ""
  end_time : Option Int := none
  start_splice : Int := 0
  start_splice_half_length : Int := 0
  end_splice : Option Int := none
  end_splice_half_length : Option Int := none
  ready_to_splice : List Bool := []
  new_lyric_start : Int := 0
deriving DecidableEq

/-- A lyric store: the embedding of the Python dict `lyrics`, an association
list in insertion order keyed by millisecond start offset. -/
abbrev Store := List (Int × LineContent)

/-- Dict lookup `lyrics.get(k)`. -/
def lookup (k : Int) : Store → Option LineContent
  | [] => none
  | (k', c) :: rest => if k' = k then some c else lookup k rest

/-- Dict assignment `lyrics[k] = v`: overwrites in place when the key exists
(keeping its position, as a Python dict does) and appends otherwise. -/
def upsert (k : Int) (v : LineContent) : Store → Store
  | [] => [(k, v)]
  | (k', c) :: rest => if k' = k then (k', v) :: rest else (k', c) :: upsert k v rest

/-- `sorted(lyrics.keys())`. -/
def sortKeys (st : Store) : List Int :=
  List.insertionSort (fun a b => a ≤ b) (st.map Prod.fst)

/-- Step 4b of `calculate_local_splice_times`: locate the last leading silent
millisecond (first-loud index minus one, which may be -1), subtract the start
half length, then pad with silence when negative or drop that many leading
milliseconds otherwise. -/
def calcLocalStart (clip : List Bool) (halfLen : Int) : List Bool :=
  let localStart : Int := (leadingSilenceLen clip : Int) - 1
  let adjusted : Int := localStart - halfLen
  if adjusted < 0 then List.replicate adjusted.natAbs false ++ clip
  else clip.drop adjusted.toNat

/-- Step 4c of `calculate_local_splice_times`: skipped entirely when the end
half length is `None`; otherwise locate the first trailing silent millisecond
walking backwards (plus one), add the end half length, then pad with silence
past the end or truncate at that point. -/
def calcLocalEnd (clip : List Bool) (halfLen : Option Int) : List Bool :=
  match halfLen with
  | none => clip
  | some h =>
    let localEnd : Int := (clip.length : Int) - (trailingSilenceLen clip : Int) + 1
    let adjusted : Int := localEnd + h
    if (clip.length : Int) < adjusted then
      clip ++ List.replicate (adjusted - (clip.length : Int)).toNat false
    else pySliceTo clip adjusted

/-- Embedding of `calculate_local_splice_times`: the leading-edge adjustment
followed by the (possibly skipped) trailing-edge adjustment. -/
def calculate_local_splice_times (clip : List Bool) (c : LineContent) : List Bool :=
  calcLocalEnd (calcLocalStart clip c.start_splice_half_length) c.end_splice_half_length

/-- Embedding of `calculate_splice_times`: annotate every entry with the
original-track splice points for its start time and effective end time. -/
def calculate_splice_times (track : List Bool) (lyrics : Store) : Store :=
  lyrics.map (fun e =>
    let ss := find_start_splice_point track e.1.toNat
    let es := find_end_splice_point track (e.2.end_time.map Int.toNat)
    (e.1, { e.2 with
            start_splice := (ss.1 : Int)
            start_splice_half_length := (ss.2 : Int)
            end_splice := es.1.map (fun n => (n : Int))
            end_splice_half_length := es.2.map (fun n => (n : Int)) }))

/-- Embedding of `generate_readings_with_polly`: the synthesis service is an
external collaborator returning one opaque clip per target, modelled as the
input function `clips`; each raw clip is then aligned by
`calculate_local_splice_times` and stored as `ready_to_splice`. -/
def generate_readings_with_polly (lyrics : Store) (clips : Int → List Bool) : Store :=
  lyrics.map (fun e =>
    (e.1, { e.2 with ready_to_splice := calculate_local_splice_times (clips e.1) e.2 }))

/-- One iteration of the `splice_audio_segments` loop, carrying the live track,
the cumulative `delta_time` and the already-processed entries. -/
def spliceStep (acc : List Bool × Int × Store) (entry : Int × LineContent) :
    List Bool × Int × Store :=
  let cur := acc.1
  let delta := acc.2.1
  let done := acc.2.2
  let c := entry.2
  let start : Int := c.start_splice + delta
  match c.end_splice with
  | none =>
    let out := pySliceTo cur start ++ c.ready_to_splice
    (out, delta,
      done ++ [(entry.1, { c with new_lyric_start := start,
                                  end_time := some (out.length : Int) })])
  | some e0 =>
    let e : Int := e0 + delta
    let out := pySliceTo cur start ++ c.ready_to_splice ++ pySliceFrom cur e
    let endT : Int := start + (c.ready_to_splice.length : Int) +
      (c.end_splice_half_length.getD 0)
    (out, delta + (c.ready_to_splice.length : Int) - (e - start),
      done ++ [(entry.1, { c with new_lyric_start := start, end_time := some endT })])

/-- Embedding of `splice_audio_segments`: fold the splice step over the targets
in store (insertion) order, starting from the original track and `delta = 0`,
returning the final track and the updated store. -/
def splice_audio_segments (track : List Bool) (lyrics : Store) : List Bool × Store :=
  let r := lyrics.foldl spliceStep (track, 0, [])
  (r.1, r.2.2)

/-- An exact rational written as an integer fraction `(num, den)` with a
positive denominator (every operation below preserves positivity).  The
standard `Rat` operations do not reduce inside the kernel, so the float model
uses these explicit fractions instead; fractions are never normalised, all
comparisons cross-multiply. -/
abbrev Frac := Int × Int

/-- The fraction of an integer. -/
def fracOfInt (n : Int) : Frac := (n, 1)

/-- Fraction addition. -/
def fracAdd (a b : Frac) : Frac := (a.1 * b.2 + b.1 * a.2, a.2 * b.2)

/-- Fraction multiplication. -/
def fracMul (a b : Frac) : Frac := (a.1 * b.1, a.2 * b.2)

/-- Fraction negation. -/
def fracNeg (a : Frac) : Frac := (-a.1, a.2)

/-- Fraction reciprocal (never applied to zero in this development). -/
def fracInv (a : Frac) : Frac :=
  if 0 < a.1 then (a.2, a.1) else if a.1 < 0 then (-a.2, -a.1) else (0, 1)

/-- Fraction comparison (the denominators are positive). -/
def fracLt (a b : Frac) : Prop := a.1 * b.2 < b.1 * a.2

instance (a b : Frac) : Decidable (fracLt a b) := by
  unfold fracLt
  infer_instance

/-- Fraction equality as values (the representations need not agree). -/
def fracEq (a b : Frac) : Prop := a.1 * b.2 = b.1 * a.2

instance (a b : Frac) : Decidable (fracEq a b) := by
  unfold fracEq
  infer_instance

/-- Floor of a fraction (`Int.fdiv` is floor division, the denominator is
positive). -/
def fracFloor (a : Frac) : Int := Int.fdiv a.1 a.2

/-- Ceiling of a fraction. -/
def fracCeil (a : Frac) : Int := -fracFloor (fracNeg a)

/-- Python `int()` applied to a float: truncation toward zero. -/
def pyInt (q : Frac) : Int :=
  if q.1 < 0 then -fracFloor (fracNeg q) else fracFloor q

/-- Fueled binary logarithm on naturals (floor); fuel 128 covers every value
reached in this development.  Written structurally so the kernel can reduce it. -/
def natLog2Go : Nat → Nat → Nat
  | 0, _ => 0
  | fuel + 1, n => if 2 ≤ n then natLog2Go fuel (n / 2) + 1 else 0

/-- Floor of log2 on naturals. -/
def natLog2 (n : Nat) : Nat :=
  natLog2Go 128 n

/-- Ceiling of log2 on naturals. -/
def ceilLog2 (n : Nat) : Nat :=
  if n ≤ 1 then 0 else natLog2 (n - 1) + 1

/-- The fraction `2^e` for an integer exponent. -/
def pow2 (e : Int) : Frac :=
  if 0 ≤ e then (((2 ^ e.toNat : Nat) : Int), 1) else (1, ((2 ^ (-e).toNat : Nat) : Int))

/-- Floor of log2 of a positive fraction: the unique `e` with
`2^e ≤ q < 2^(e+1)`. -/
def ilog2q (q : Frac) : Int :=
  if q.2 ≤ q.1 then (natLog2 (fracFloor q).toNat : Int)
  else -(ceilLog2 (fracCeil (fracInv q)).toNat : Int)

/-- Round a fraction to the nearest integer, ties to even. -/
def rne (m : Frac) : Int :=
  let f := fracFloor m
  let frac := fracAdd m (fracOfInt (-f))
  if fracLt frac (1, 2) then f
  else if fracLt (1, 2) frac then f + 1
  else if f % 2 = 0 then f else f + 1

/-- IEEE binary64 rounding (round to nearest, ties to even) of a positive
fraction in the normal range: scale so that 53 significant bits sit at the
integer position, round, and scale back. -/
def fl64pos (q : Frac) : Frac :=
  let e := ilog2q q
  let s := pow2 (52 - e)
  fracMul (fracOfInt (rne (fracMul q s))) (fracInv s)

/-- IEEE binary64 rounding of a fraction (CPython float semantics for the
values reached here: all normal, no overflow). -/
def fl64 (q : Frac) : Frac :=
  if q.1 = 0 then (0, 1) else if q.1 < 0 then fracNeg (fl64pos (fracNeg q)) else fl64pos q

/-- Embedding of the arithmetic of `timestamp_to_milliseconds` once the regex
groups `minutes`, `seconds`, `hundredths` are known:
`int((minutes * 60 + (seconds + hundredths / 100.0)) * 1000)` where every
float operation rounds to binary64. -/
def timestampFloatMs (m s f : Nat) : Int :=
  let fFrac := fl64 ((f : Int), 100)
  let seconds := fl64 (fracAdd (fracOfInt (s : Int)) fFrac)
  let total := fl64 (fracAdd (fracOfInt ((m * 60 : Nat) : Int)) seconds)
  pyInt (fl64 (fracMul total (fracOfInt 1000)))

/-- Numeric value of a digit string (the embedding of Python `int(group)`). -/
def digitsVal (ds : List Char) : Nat :=
  ds.foldl (fun a c => 10 * a + (c.toNat - 48)) 0

/-- Split a leading run of decimal digits off a character list. -/
def takeDigits (cs : List Char) : List Char × List Char :=
  (cs.takeWhile Char.isDigit, cs.dropWhile Char.isDigit)

/-- Matcher for the pattern of `timestamp_to_milliseconds`,
an unanchored prefix match of optional "[", digits, ":", digits, ".", digits,
with anything allowed to follow (the closing bracket is optional). -/
def matchTimestampPrefix (cs : List Char) : Option (Nat × Nat × Nat) :=
  let cs1 := match cs with
    | '[' :: r => r
    | _ => cs
  let p1 := takeDigits cs1
  if p1.1.isEmpty then none else
  match p1.2 with
  | ':' :: r2 =>
    let p2 := takeDigits r2
    if p2.1.isEmpty then none else
    match p2.2 with
    | '.' :: r4 =>
      let p3 := takeDigits r4
      if p3.1.isEmpty then none else
      some (digitsVal p1.1, digitsVal p2.1, digitsVal p3.1)
    | _ => none
  | _ => none

/-- Embedding of `timestamp_to_milliseconds` on the full text: `None` when the
pattern does not match. -/
def timestamp_to_milliseconds (s : String) : Option Int :=
  (matchTimestampPrefix s.data).map (fun t => timestampFloatMs t.1 t.2.1 t.2.2)

/-- Matcher for the line pattern of `parse_lrc_file`: a mandatory
bracketed timestamp followed by the rest of the line (group 4). -/
def matchLRC (cs : List Char) : Option (Nat × Nat × Nat × List Char) :=
  match cs with
  | '[' :: rest =>
    let p1 := takeDigits rest
    if p1.1.isEmpty then none else
    match p1.2 with
    | ':' :: r2 =>
      let p2 := takeDigits r2
      if p2.1.isEmpty then none else
      match p2.2 with
      | '.' :: r4 =>
        let p3 := takeDigits r4
        if p3.1.isEmpty then none else
        match p3.2 with
        | ']' :: text => some (digitsVal p1.1, digitsVal p2.1, digitsVal p3.1, text)
        | _ => none
      | _ => none
    | _ => none
  | _ => none

/-- Python `str.strip()` (whitespace at both ends). -/
def strip (s : List Char) : List Char :=
  ((s.dropWhile Char.isWhitespace).reverse.dropWhile Char.isWhitespace).reverse

/-- One line of `parse_lrc_file`: matching lines are inserted into the store
keyed by the float-parsed millisecond offset of the whole matched text (a later
line with the same key overwrites the stored text); other lines are skipped. -/
def parseLine (st : Store) (line : String) : Store :=
  match matchLRC line.data with
  | none => st
  | some (m, s, f, text) =>
    upsert (timestampFloatMs m s f) { original := (⟨strip text⟩ : String) } st

/-- Embedding of `parse_lrc_file` over the list of input lines. -/
def parse_lrc_file (lines : List String) : Store :=
  lines.foldl parseLine []

/-- Case-insensitive character comparison (Python `re.IGNORECASE` on an escaped
literal, ASCII case mapping as used by every input in this development). -/
def charEqCI (a b : Char) : Bool :=
  a.toLower = b.toLower

/-- Plain prefix test on character lists. -/
def isPrefixB : List Char → List Char → Bool
  | [], _ => true
  | _ :: _, [] => false
  | a :: as, b :: bs => (a = b) && isPrefixB as bs

/-- Plain substring test on character lists (Python `needle in hay`). -/
def isInfixB (needle : List Char) : List Char → Bool
  | [] => isPrefixB needle []
  | c :: rest => isPrefixB needle (c :: rest) || isInfixB needle rest

/-- Python `target.lower() in line.lower()`. -/
def containsSubstrCI (needle hay : String) : Bool :=
  isInfixB (needle.data.map Char.toLower) (hay.data.map Char.toLower)

/-- Case-insensitive prefix test. -/
def isPrefixCI : List Char → List Char → Bool
  | [], _ => true
  | _ :: _, [] => false
  | a :: as, b :: bs => charEqCI a b && isPrefixCI as bs

/-- Left-to-right, non-overlapping, case-insensitive replacement of every
occurrence of a literal pattern, the behaviour of
`re.sub(re.escape(pat), rep, s, flags=re.IGNORECASE)` for a non-empty pattern.
The fuel argument is the length of the subject, enough because every step
consumes at least one subject character. -/
def replaceCIGo (pat rep : List Char) : Nat → List Char → List Char
  | _, [] => []
  | 0, s => s
  | fuel + 1, c :: rest =>
    if isPrefixCI pat (c :: rest) then
      rep ++ replaceCIGo pat rep fuel (rest.drop (pat.length - 1))
    else c :: replaceCIGo pat rep fuel rest

/-- Replacement entry point; the script never passes an empty pattern (the CLI
target is non-empty), for which the model returns the subject unchanged. -/
def replaceCI (pat rep s : String) : String :=
  if pat.isEmpty then s else ⟨replaceCIGo pat.data rep.data s.data.length s.data⟩

/-- The update applied by `calculate_ssml_replacement` to the entry at position
`i` of the sorted key list: case-insensitive replacement of the target inside
the original text, the markup envelope, and the effective end time taken from
the next key of the full store's sorted order (`none` past the end). -/
def planUpdate (sortedAll : List Int) (repl target : String) (i : Nat)
    (c : LineContent) : LineContent :=
  { c with newText := replaceCI target repl c.original
           ssml := "<speak>" ++ replaceCI target repl c.original ++ "</speak>"
           end_time := sortedAll.get? (i + 1) }

/-- The loop of `calculate_ssml_replacement`: enumerate the sorted keys of the
full store and update the selected store wherever the key is present. -/
def planGo (sortedAll : List Int) (repl target : String) :
    List Int → Nat → Store → Store
  | [], _, st => st
  | tk :: rest, i, st =>
    planGo sortedAll repl target rest (i + 1)
      (match lookup tk st with
       | none => st
       | some c => upsert tk (planUpdate sortedAll repl target i c) st)

/-- Embedding of `calculate_ssml_replacement`. -/
def calculate_ssml_replacement (lyrics all : Store) (repl target : String) : Store :=
  planGo (sortKeys all) repl target (sortKeys all) 0 lyrics

/-- Embedding of `find_lines_with_word`: keep the entries whose original text
contains the target word case-insensitively. -/
def find_lines_with_word (lyrics : Store) (target : String) : Store :=
  lyrics.filter (fun e => containsSubstrCI target e.2.original)

/-- The timestamp text produced by the f-strings of `update_lyrics_file`:
`"[" + ms // 60000 + ":" + (ms % 60000) // 1000 + "." + (ms % 1000) // 10 + "]"`
with Python floor division and modulo, and no zero padding. -/
def format_timestamp (ms : Int) : String :=
  "[" ++ (ms / 60000).repr ++ ":" ++ ((ms % 60000) / 1000).repr
    ++ "." ++ ((ms % 1000) / 10).repr ++ "]"

/-- The loop of `update_lyrics_file` over the sorted original keys, carrying the
running index and the current time shift; emits one output line per key.
A corrected key emits its recorded new start and corrected text and reassigns
the shift when both its new end time and the next original key exist; any other
key emits the original text at its shifted time.  (The lookup into the original
store cannot fail for a key drawn from it; the impossible branch is skipped.) -/
def updateGo (sortedAll : List Int) (original lyrics : Store) :
    List Int → Nat → Int → List String
  | [], _, _ => []
  | tk :: rest, i, shift =>
    match lookup tk lyrics with
    | some c =>
      let shift' := match c.end_time, sortedAll.get? (i + 1) with
        | some e, some oe => e - oe
        | _, _ => shift
      (format_timestamp c.new_lyric_start ++ c.newText)
        :: updateGo sortedAll original lyrics rest (i + 1) shift'
    | none =>
      match lookup tk original with
      | some oc =>
        (format_timestamp (tk + shift) ++ oc.original)
          :: updateGo sortedAll original lyrics rest (i + 1) shift
      | none => updateGo sortedAll original lyrics rest (i + 1) shift

/-- Embedding of `update_lyrics_file`, producing the list of output lines. -/
def update_lyrics_file (original lyrics : Store) : List String :=
  updateGo (sortKeys original) original lyrics (sortKeys original) 0 0

/-- Matcher for `validate_timestamp_format`: anchored
optional "[", one or two digits, ":", exactly two digits, ".", exactly two
digits, optional "]", end of string. -/
def validate_timestamp_format (s : String) : Bool :=
  let cs := match s.data with
    | '[' :: r => r
    | other => other
  let p1 := takeDigits cs
  (1 ≤ p1.1.length && p1.1.length ≤ 2) &&
  match p1.2 with
  | ':' :: a :: b :: '.' :: x :: y :: rest =>
    a.isDigit && b.isDigit && x.isDigit && y.isDigit &&
    (rest.isEmpty || rest = [']'])
  | _ => false

/-- The word-targeting happy path of `main`: parse the lyric file, select the
lines containing the target word, plan the replacements, locate the splice
points, align the externally synthesised clips, and splice.  The two output
files hold exactly the two returned values. -/
def runWordMode (track : List Bool) (fileLines : List String)
    (target repl : String) (clips : Int → List Bool) : List Bool × Store :=
  let lyrics := parse_lrc_file fileLines
  let sel0 := find_lines_with_word lyrics target
  let sel1 := calculate_ssml_replacement sel0 lyrics repl target
  let sel2 := calculate_splice_times track sel1
  let sel3 := generate_readings_with_polly sel2 clips
  splice_audio_segments track sel3

/-- The line-targeting path of `main` (no `--word` flag): the target must be a
valid timestamp, is parsed to a key, and the single line at that key is
processed; `none` models the `parser.error` / `KeyError` exits. -/
def runLineMode (track : List Bool) (fileLines : List String)
    (target repl : String) (clips : Int → List Bool) : Option (List Bool × Store) :=
  let lyrics := parse_lrc_file fileLines
  if validate_timestamp_format target = false then none
  else
    match timestamp_to_milliseconds target with
    | none => none
    | some t =>
      match lookup t lyrics with
      | none => none
      | some c =>
        let sel1 := calculate_ssml_replacement [(t, c)] lyrics repl target
        let sel2 := calculate_splice_times track sel1
        let sel3 := generate_readings_with_polly sel2 clips
        some (splice_audio_segments track sel3)

/-! ### Helper lemmas about slices and stores -/

theorem pyIdx_le (n : Nat) (i : Int) : pyIdx n i ≤ n := by
  unfold pyIdx
  split
  · omega
  · exact min_le_right _ _

theorem pyIdx_of_nonneg_le (n : Nat) (i : Int) (h0 : 0 ≤ i) (h : i ≤ (n : Int)) :
    pyIdx n i = i.toNat := by
  unfold pyIdx
  rw [if_neg (by omega)]
  exact Nat.min_eq_left (by omega)

theorem length_pySliceTo (l : List Bool) (b : Int) :
    (pySliceTo l b).length = pyIdx l.length b := by
  simp [pySliceTo, List.length_take, Nat.min_eq_left (pyIdx_le _ _)]

theorem length_pySliceFrom (l : List Bool) (a : Int) :
    (pySliceFrom l a).length = l.length - pyIdx l.length a := by
  simp [pySliceFrom]

theorem lookup_upsert_self (k : Int) (v : LineContent) (st : Store) :
    lookup k (upsert k v st) = some v := by
  induction st with
  | nil => simp [upsert, lookup]
  | cons e rest ih =>
    by_cases h : e.1 = k
    · simp [upsert, h, lookup]
    · simp [upsert, h, lookup, ih]

theorem lookup_upsert_ne (k k' : Int) (v : LineContent) (st : Store) (h : k' ≠ k) :
    lookup k (upsert k' v st) = lookup k st := by
  induction st with
  | nil => simp [upsert, lookup, h]
  | cons e rest ih =>
    by_cases h2 : e.1 = k'
    · simp [upsert, h2, lookup]
      rw [if_neg (by omega), if_neg (by omega)]
    · simp only [upsert]
      rw [if_neg h2]
      by_cases h3 : e.1 = k
      · simp [lookup, h3]
      · simp [lookup, h3, ih]

/-! ### C1: length of a single mid-track splice -/

/-- C1: for a track of length `T` and a single mid-track target (its
`end_splice` is not null and both splice points lie inside the track, as the
splice-point locators guarantee), `splice_audio_segments` returns a track of
length `T + L - (end_splice - start_splice)` where `L` is the length of the
aligned replacement clip. -/
theorem c1_splice_length (track : List Bool) (k e : Int) (c : LineContent)
    (he : c.end_splice = some e)
    (hs0 : 0 ≤ c.start_splice) (hsT : c.start_splice ≤ (track.length : Int))
    (he0 : 0 ≤ e) (heT : e ≤ (track.length : Int)) :
    (((splice_audio_segments track [(k, c)]).1.length : Int)) =
      (track.length : Int) + (c.ready_to_splice.length : Int) - (e - c.start_splice) := by
  simp only [splice_audio_segments, List.foldl, spliceStep, he]
  simp only [List.length_append, length_pySliceTo, length_pySliceFrom]
  rw [pyIdx_of_nonneg_le _ _ (by omega) (by omega),
      pyIdx_of_nonneg_le _ _ (by omega) (by omega)]
  omega

/-- Witness for C1 at a concrete input. -/
theorem c1_splice_length_witness :
    ({ start_splice := 1, end_splice := some 2,
       ready_to_splice := [false] } : LineContent).end_splice = some 2 ∧
    (((splice_audio_segments [true, false, true, true]
        [(5, { start_splice := 1, end_splice := some 2,
               ready_to_splice := [false] })]).1.length : Int)) =
      (4 : Int) + 1 - (2 - 1) :=
  ⟨by decide,
   c1_splice_length [true, false, true, true] 5 2
     { start_splice := 1, end_splice := some 2, ready_to_splice := [false] }
     (by decide) (by decide) (by decide) (by decide) (by decide)⟩

/-! ### C3: track-final target -/

/-- C3: for a track-final target (`end_time` null) the end locator returns
`(None, None)`, the local alignment touches only the leading edge of the clip
(the result is the clip with leading silence either prepended or dropped, its
trailing edge untouched), and when it is the only target the splice appends the
aligned clip after `track[0:start_splice]`, so the resulting track length is
`start_splice + len(clip)`. -/
theorem c3_track_final (track clip : List Bool) (k : Int) (c : LineContent)
    (hend : c.end_splice_half_length = none) (hends : c.end_splice = none)
    (hs0 : 0 ≤ c.start_splice) (hsT : c.start_splice ≤ (track.length : Int)) :
    find_end_splice_point track none = (none, none) ∧
    ((∃ pad, calculate_local_splice_times clip c = List.replicate pad false ++ clip) ∨
      (∃ d, calculate_local_splice_times clip c = clip.drop d)) ∧
    (((splice_audio_segments track [(k, c)]).1.length : Int)) =
      c.start_splice + (c.ready_to_splice.length : Int) := by
  refine ⟨rfl, ?_, ?_⟩
  · simp only [calculate_local_splice_times, hend, calcLocalEnd]
    by_cases hlt : ((leadingSilenceLen clip : Int) - 1 - c.start_splice_half_length) < 0
    · refine Or.inl ⟨((leadingSilenceLen clip : Int) - 1 -
        c.start_splice_half_length).natAbs, ?_⟩
      dsimp only [calcLocalStart]
      rw [if_pos hlt]
    · refine Or.inr ⟨((leadingSilenceLen clip : Int) - 1 -
        c.start_splice_half_length).toNat, ?_⟩
      dsimp only [calcLocalStart]
      rw [if_neg hlt]
  · simp only [splice_audio_segments, List.foldl, spliceStep, hends]
    simp only [List.length_append, length_pySliceTo]
    rw [pyIdx_of_nonneg_le _ _ (by omega) (by omega)]
    omega

/-- Witness for C3 at a concrete input. -/
theorem c3_track_final_witness :
    ({ start_splice := 2, ready_to_splice := [true, true] } : LineContent).end_splice_half_length
        = none ∧
    ({ start_splice := 2, ready_to_splice := [true, true] } : LineContent).end_splice = none ∧
    (find_end_splice_point [true, false, true] none = (none, none) ∧
      ((∃ pad, calculate_local_splice_times [false, true]
          { start_splice := 2, ready_to_splice := [true, true] } =
            List.replicate pad false ++ [false, true]) ∨
        (∃ d, calculate_local_splice_times [false, true]
          { start_splice := 2, ready_to_splice := [true, true] } = List.drop d [false, true])) ∧
      (((splice_audio_segments [true, false, true]
          [(7, { start_splice := 2, ready_to_splice := [true, true] })]).1.length : Int)) =
        2 + (2 : Int)) :=
  ⟨by decide, by decide,
   c3_track_final [true, false, true] [false, true] 7
     { start_splice := 2, ready_to_splice := [true, true] }
     (by decide) (by decide) (by decide) (by decide)⟩

/-! ### Silence-run lemmas for the local alignment adjuster -/

theorem leadingSilenceLen_cons_true (l : List Bool) :
    leadingSilenceLen (true :: l) = 0 := by
  simp [leadingSilenceLen, List.takeWhile_cons]

theorem leadingSilenceLen_cons_false (l : List Bool) :
    leadingSilenceLen (false :: l) = leadingSilenceLen l + 1 := by
  simp [leadingSilenceLen, List.takeWhile_cons]

theorem leadingSilenceLen_shape (s : Nat) (t : List Bool) :
    leadingSilenceLen (List.replicate s false ++ true :: t) = s := by
  induction s with
  | zero => simpa using leadingSilenceLen_cons_true t
  | succ n ih =>
    rw [List.replicate_succ, List.cons_append, leadingSilenceLen_cons_false, ih]

theorem leadingSilenceLen_decomp (l : List Bool) (hl : true ∈ l) :
    ∃ t, l = List.replicate (leadingSilenceLen l) false ++ true :: t := by
  induction l with
  | nil => cases hl
  | cons b rest ih =>
    cases b with
    | true => exact ⟨rest, by rw [leadingSilenceLen_cons_true]; rfl⟩
    | false =>
      have hr : true ∈ rest := by simpa using hl
      obtain ⟨t, ht⟩ := ih hr
      refine ⟨t, ?_⟩
      rw [leadingSilenceLen_cons_false, List.replicate_succ, List.cons_append]
      exact congrArg (false :: ·) ht

theorem trailingSilenceLen_shape (u : List Bool) (k : Nat) :
    trailingSilenceLen (u ++ true :: List.replicate k false) = k := by
  unfold trailingSilenceLen
  rw [List.reverse_append, List.reverse_cons, List.reverse_replicate, List.append_assoc,
      List.singleton_append]
  exact leadingSilenceLen_shape k _

theorem trailingSilenceLen_decomp (l : List Bool) (hl : true ∈ l) :
    ∃ u, l = u ++ true :: List.replicate (trailingSilenceLen l) false := by
  have hlr : true ∈ l.reverse := by simpa using hl
  obtain ⟨t, ht⟩ := leadingSilenceLen_decomp l.reverse hlr
  refine ⟨t.reverse, ?_⟩
  have h2 := congrArg List.reverse ht
  rw [List.reverse_reverse, List.reverse_append, List.reverse_cons, List.reverse_replicate,
      List.append_assoc, List.singleton_append] at h2
  exact h2

theorem leadingSilenceLen_after_true (u a b : List Bool) :
    leadingSilenceLen (u ++ true :: a) = leadingSilenceLen (u ++ true :: b) := by
  induction u with
  | nil => rw [List.nil_append, List.nil_append, leadingSilenceLen_cons_true,
      leadingSilenceLen_cons_true]
  | cons c u' ih =>
    cases c with
    | true => rw [List.cons_append, List.cons_append, leadingSilenceLen_cons_true,
        leadingSilenceLen_cons_true]
    | false => rw [List.cons_append, List.cons_append, leadingSilenceLen_cons_false,
        leadingSilenceLen_cons_false, ih]

theorem drop_replicate_all (n m : Nat) (x : Bool) :
    (List.replicate m x).drop n = List.replicate (m - n) x := by
  induction m generalizing n with
  | zero => simp
  | succ m2 ih =>
    cases n with
    | zero => simp
    | succ n2 =>
      rw [List.replicate_succ, List.drop_succ_cons, ih]
      congr 1
      omega

/-- After the leading-edge adjustment of a clip containing at least one loud
millisecond, the clip starts with exactly `half_length + 1` silent milliseconds
followed by a loud one. -/
theorem calcLocalStart_shape (clip : List Bool) (h : Int) (hc : true ∈ clip) (h0 : 0 ≤ h) :
    ∃ t, calcLocalStart clip h = List.replicate (h.toNat + 1) false ++ true :: t := by
  obtain ⟨t, ht⟩ := leadingSilenceLen_decomp clip hc
  refine ⟨t, ?_⟩
  set s := leadingSilenceLen clip with hs
  rw [ht]
  dsimp only [calcLocalStart]
  rw [leadingSilenceLen_shape]
  by_cases hlt : ((s : Int) - 1 - h) < 0
  · rw [if_pos hlt, ← List.append_assoc, ← List.replicate_add]
    have he : ((s : Int) - 1 - h).natAbs + s = h.toNat + 1 := by omega
    rw [he]
  · rw [if_neg hlt, List.drop_append_of_le_length (by simp; omega), drop_replicate_all]
    have he : s - ((s : Int) - 1 - h).toNat = h.toNat + 1 := by omega
    rw [he]

theorem pad_branch_shape (u : List Bool) (t D : Nat) :
    (u ++ true :: List.replicate t false) ++ List.replicate D false
      = u ++ true :: List.replicate (t + D) false := by
  rw [List.append_assoc, List.cons_append, ← List.replicate_add]

theorem take_branch_shape (u : List Bool) (t m : Nat) (hm : m + 1 ≤ t) :
    (u ++ true :: List.replicate t false).take (u.length + (m + 2))
      = u ++ true :: List.replicate (m + 1) false := by
  rw [List.take_append_eq_append_take, List.take_of_length_le (by omega)]
  have h2 : u.length + (m + 2) - u.length = (m + 1) + 1 := by omega
  rw [h2, List.take_succ_cons, List.take_replicate, Nat.min_eq_left (by omega)]

/-- After the trailing-edge adjustment of a clip containing at least one loud
millisecond, the clip ends with exactly `half_length + 1` silent milliseconds,
and its leading silence is untouched. -/
theorem calcLocalEnd_some (clip : List Bool) (h : Int) (hc : true ∈ clip) (h0 : 0 ≤ h) :
    trailingSilenceLen (calcLocalEnd clip (some h)) = h.toNat + 1 ∧
    leadingSilenceLen (calcLocalEnd clip (some h)) = leadingSilenceLen clip := by
  obtain ⟨u, hu⟩ := trailingSilenceLen_decomp clip hc
  set t := trailingSilenceLen clip with htd
  rw [hu]
  dsimp only [calcLocalEnd]
  rw [trailingSilenceLen_shape]
  have hlen : (u ++ true :: List.replicate t false).length = u.length + 1 + t := by
    simp only [List.length_append, List.length_cons, List.length_replicate]
    omega
  by_cases hcase : ((u ++ true :: List.replicate t false).length : Int) <
      ((u ++ true :: List.replicate t false).length : Int) - (t : Int) + 1 + h
  · rw [if_pos hcase, pad_branch_shape]
    constructor
    · rw [trailingSilenceLen_shape]
      omega
    · exact leadingSilenceLen_after_true u _ _
  · rw [if_neg hcase]
    dsimp only [pySliceTo]
    rw [pyIdx_of_nonneg_le _ _ (by omega) (by omega)]
    have h2 : (((u ++ true :: List.replicate t false).length : Int) - (t : Int) + 1 + h).toNat
        = u.length + (h.toNat + 2) := by omega
    rw [h2, take_branch_shape u t h.toNat (by omega)]
    constructor
    · rw [trailingSilenceLen_shape]
    · exact leadingSilenceLen_after_true u _ _

/-! ### C2: measured silence margins of the aligned clip -/

/-- C2 (amended): for every raw synthesized clip containing at least one
non-silent millisecond and nonnegative half lengths, the clip returned by
`calculate_local_splice_times` has leading silence width exactly
`start_splice_half_length + 1` (hence equal to the original boundary's half
length within one sample), and, when the end boundary is not null, trailing
silence width exactly `end_splice_half_length + 1`, silence being measured with
the same -60 dBFS threshold scan.  The all-silent-clip counterexample shows the
loud-millisecond hypothesis is necessary. -/
theorem c2_alignment (clip : List Bool) (c : LineContent)
    (hc : true ∈ clip) (hs0 : 0 ≤ c.start_splice_half_length)
    (hend : ∀ h, c.end_splice_half_length = some h → 0 ≤ h) :
    (leadingSilenceLen (calculate_local_splice_times clip c) : Int)
        = c.start_splice_half_length + 1 ∧
    (∀ h, c.end_splice_half_length = some h →
      (trailingSilenceLen (calculate_local_splice_times clip c) : Int) = h + 1) := by
  obtain ⟨t1, ht1⟩ := calcLocalStart_shape clip c.start_splice_half_length hc hs0
  have hc2 : true ∈ calcLocalStart clip c.start_splice_half_length := by
    rw [ht1]
    simp
  unfold calculate_local_splice_times
  cases hx : c.end_splice_half_length with
  | none =>
    constructor
    · dsimp only [calcLocalEnd]
      rw [ht1, leadingSilenceLen_shape]
      omega
    · intro h hcontra
      cases hcontra
  | some h =>
    have h0 := hend h hx
    obtain ⟨htr, hld⟩ := calcLocalEnd_some (calcLocalStart clip c.start_splice_half_length)
      h hc2 h0
    constructor
    · rw [hld, ht1, leadingSilenceLen_shape]
      omega
    · intro h2 hh2
      have hhe : h2 = h := by
        exact (Option.some_inj.mp hh2).symm
      rw [hhe, htr]
      omega

/-- C2 counterexample: an all-silent five-millisecond raw clip with a start
half length of 10 and an end half length of 0 is aligned to a clip whose
measured leading silence is 1 millisecond, nine samples away from the original
boundary's half length, refuting the claim as stated for arbitrary clips. -/
theorem c2_counterexample :
    ¬ (((leadingSilenceLen (calculate_local_splice_times (List.replicate 5 false)
        { start_splice_half_length := 10, end_splice_half_length := some 0 }) : Int)
          - 10).natAbs ≤ 1) := by
  decide

/-- Witness for C2 at a concrete input. -/
theorem c2_alignment_witness :
    true ∈ [false, true] ∧
    (0 : Int) ≤ 3 ∧
    ((leadingSilenceLen (calculate_local_splice_times [false, true]
        { start_splice_half_length := 3, end_splice_half_length := some 2 }) : Int) = 3 + 1 ∧
      (∀ h : Int, some (2 : Int) = some h →
        (trailingSilenceLen (calculate_local_splice_times [false, true]
          { start_splice_half_length := 3, end_splice_half_length := some 2 }) : Int)
            = h + 1)) :=
  ⟨by decide, by decide,
   c2_alignment [false, true]
     { start_splice_half_length := 3, end_splice_half_length := some 2 }
     (by decide) (by decide)
     (fun h hh => by
       have : h = 2 := by
         exact (Option.some_inj.mp hh).symm
       omega)⟩

/-! ### C4: the effective-end-time invariant of the Replacement Planner -/

theorem planGo_not_mem (sortedAll : List Int) (repl target : String) (tk : Int) :
    ∀ (l : List Int) (i : Nat) (st : Store), tk ∉ l →
      lookup tk (planGo sortedAll repl target l i st) = lookup tk st := by
  intro l
  induction l with
  | nil => intro i st _; rfl
  | cons k l' ih =>
    intro i st hmem
    have hk : k ≠ tk := fun he => hmem (he ▸ List.mem_cons_self k l')
    have hl' : tk ∉ l' := fun hm => hmem (List.mem_cons_of_mem k hm)
    simp only [planGo]
    rw [ih (i + 1) _ hl']
    cases hlk : lookup k st with
    | none => rfl
    | some c => exact lookup_upsert_ne tk k _ st hk

theorem planGo_lookup (sortedAll : List Int) (repl target : String) :
    ∀ (l : List Int), l.Nodup → ∀ (j : Nat) (tk : Int), l.get? j = some tk →
      ∀ (i : Nat) (st : Store),
        lookup tk (planGo sortedAll repl target l i st)
          = (lookup tk st).map (planUpdate sortedAll repl target (i + j)) := by
  intro l
  induction l with
  | nil => intro _ j tk hj; cases hj
  | cons k l' ih =>
    intro hnd j tk hj i st
    have hknotin : k ∉ l' := (List.nodup_cons.mp hnd).1
    cases j with
    | zero =>
      have hk : k = tk := by
        simpa using hj
      subst hk
      simp only [planGo]
      rw [planGo_not_mem sortedAll repl target k l' (i + 1) _ hknotin]
      cases hlk : lookup k st with
      | none => simp [hlk]
      | some c => simp [lookup_upsert_self, hlk]
    | succ j' =>
      have hj' : l'.get? j' = some tk := by
        simpa using hj
      have htkin : tk ∈ l' := List.get?_mem hj'
      have hk : k ≠ tk := fun he => hknotin (he ▸ htkin)
      simp only [planGo]
      rw [ih (List.nodup_cons.mp hnd).2 j' tk hj' (i + 1)]
      have harith : i + 1 + j' = i + (j' + 1) := by omega
      rw [harith]
      cases hlk : lookup k st with
      | none => rfl
      | some c => rw [lookup_upsert_ne tk k _ st hk]

/-- C4 (amended): after the Replacement Planner runs, the selected line that is
the Nth of the full store's sorted time-key order has `end_time` equal to the
(N+1)th sorted time key, or null when it is the last line (`List.get?` past the
end).  The invariant holds at the planner stage only: the Timeline Splicer
later overwrites each spliced line's `end_time` with its end position in the
new track, so it does not persist end-to-end (see the counterexample). -/
theorem c4_planner_end_time (lyrics all : Store) (repl target : String) (N : Nat)
    (tk : Int) (c : LineContent)
    (hnd : (sortKeys all).Nodup)
    (hN : (sortKeys all).get? N = some tk)
    (hsel : lookup tk lyrics = some c) :
    lookup tk (calculate_ssml_replacement lyrics all repl target)
      = some (planUpdate (sortKeys all) repl target N c) ∧
    (planUpdate (sortKeys all) repl target N c).end_time = (sortKeys all).get? (N + 1) := by
  constructor
  · unfold calculate_ssml_replacement
    rw [planGo_lookup (sortKeys all) repl target (sortKeys all) hnd N tk hN 0 lyrics, hsel]
    simp
  · rfl

/-- A 30-millisecond original track: loud for 9 ms, silent for 3 ms, loud for
7 ms, silent for 3 ms, loud for 8 ms. -/
def demoTrack : List Bool :=
  List.replicate 9 true ++ List.replicate 3 false ++ List.replicate 7 true ++
    List.replicate 3 false ++ List.replicate 8 true

/-- A two-line lyric file with keys 10 ms and 20 ms. -/
def demoFile : List String := ["[0:00.01]ax", "[0:00.02]b"]

/-- One raw synthesized clip, three loud milliseconds. -/
def demoClips : Int → List Bool := fun _ => [true, true, true]

/-- C4 counterexample: running the whole word-mode pipeline on the two-line
store (selecting the first line, which the planner correctly gives
`end_time = 20`, the second line's original time key) leaves the first line
with `end_time = 17` after `splice_audio_segments`, which overwrites it with
the replacement's end position in the new track; 17 is not the next line's
original time key 20, so the invariant does not hold end-to-end through the
pipeline. -/
theorem c4_counterexample :
    (lookup 10 (runWordMode demoTrack demoFile "x" "yy" demoClips).2).map
        (fun c => c.end_time) = some (some 17) ∧
    sortKeys (parse_lrc_file demoFile) = [10, 20] ∧
    (17 : Int) ≠ 20 := by
  decide

/-- Witness for C4 at a concrete input. -/
theorem c4_planner_end_time_witness :
    (sortKeys [((1 : Int), ({ original := "a" } : LineContent)),
               ((5 : Int), ({ original := "b" } : LineContent))]).Nodup ∧
    (sortKeys [((1 : Int), ({ original := "a" } : LineContent)),
               ((5 : Int), ({ original := "b" } : LineContent))]).get? 1 = some 5 ∧
    lookup 5 [((5 : Int), ({ original := "b" } : LineContent))] = some { original := "b" } ∧
    (lookup 5 (calculate_ssml_replacement [((5 : Int), ({ original := "b" } : LineContent))]
        [((1 : Int), ({ original := "a" } : LineContent)),
         ((5 : Int), ({ original := "b" } : LineContent))] "r" "b")
      = some (planUpdate (sortKeys [((1 : Int), ({ original := "a" } : LineContent)),
          ((5 : Int), ({ original := "b" } : LineContent))]) "r" "b" 1 { original := "b" }) ∧
    (planUpdate (sortKeys [((1 : Int), ({ original := "a" } : LineContent)),
        ((5 : Int), ({ original := "b" } : LineContent))]) "r" "b" 1
          { original := "b" }).end_time
      = (sortKeys [((1 : Int), ({ original := "a" } : LineContent)),
          ((5 : Int), ({ original := "b" } : LineContent))]).get? 2) :=
  ⟨by decide, by decide, by decide,
   c4_planner_end_time [((5 : Int), ({ original := "b" } : LineContent))]
     [((1 : Int), ({ original := "a" } : LineContent)),
      ((5 : Int), ({ original := "b" } : LineContent))] "r" "b" 1 5 { original := "b" }
     (by decide) (by decide) (by decide)⟩

/-! ### C5: the format/parse round trip -/

/-- C5: evaluation of the codec at the failing input 512540 ms.  The formatter
(the f-string of `update_lyrics_file`) renders 512540 ms as "[8:32.54]", but
`timestamp_to_milliseconds` computes
`int((8 * 60 + (32 + 54 / 100.0)) * 1000)` in binary64 floating point, where
the two roundings of `32 + 0.54` and of the final product land just below
512540, so truncation returns 512539 instead of the 512540 required by the
claim (512540 is already a multiple of 10, so truncation to 10 ms resolution
is the identity here). -/
theorem c5_roundtrip_failure :
    format_timestamp 512540 = "[8:32.54]" ∧
    timestamp_to_milliseconds "[8:32.54]" = some 512539 ∧
    ((512540 : Int) / 10) * 10 = 512540 ∧
    (512539 : Int) ≠ 512540 := by
  decide

/-! ### C6: a target word absent from every line -/

theorem planGo_empty (sortedAll : List Int) (repl target : String) :
    ∀ (l : List Int) (i : Nat), planGo sortedAll repl target l i [] = [] := by
  intro l
  induction l with
  | nil => intro i; rfl
  | cons k l' ih => intro i; simpa only [planGo, lookup] using ih (i + 1)

/-- C6 (amended): for every lyric store and every target word that occurs
case-insensitively in no line, the run does not fail: `find_lines_with_word`
returns an empty selection, every later stage maps over the empty selection,
and `main` still writes both output files, the audio one holding the original
track unchanged.  No `TargetNotFoundError` (or any other error) exists on this
path in the code. -/
theorem c6_absent_word_completes (track : List Bool) (fileLines : List String)
    (target repl : String) (clips : Int → List Bool)
    (habsent : ∀ e ∈ parse_lrc_file fileLines,
      containsSubstrCI target e.2.original = false) :
    find_lines_with_word (parse_lrc_file fileLines) target = [] ∧
    runWordMode track fileLines target repl clips = (track, []) := by
  have hsel : find_lines_with_word (parse_lrc_file fileLines) target = [] := by
    unfold find_lines_with_word
    rw [List.filter_eq_nil_iff]
    intro e he
    simp [habsent e he]
  refine ⟨hsel, ?_⟩
  dsimp only [runWordMode]
  rw [hsel]
  unfold calculate_ssml_replacement
  rw [planGo_empty]
  rfl

/-- C6 counterexample: with the single-line store "[0:00.01]ab" and the absent
target word "z", the claim says the run fails with `TargetNotFoundError` and
writes no output files; instead the embedded run completes and returns the
output values that `main` then writes to the two output files (the audio equal
to the original track, the store empty). -/
theorem c6_counterexample :
    find_lines_with_word (parse_lrc_file ["[0:00.01]ab"]) "z" = [] ∧
    runWordMode (List.replicate 12 true) ["[0:00.01]ab"] "z" "r" demoClips
      = (List.replicate 12 true, []) := by
  decide

/-- Witness for C6 at a concrete input. -/
theorem c6_absent_word_completes_witness :
    (∀ e ∈ parse_lrc_file ["[0:00.02]hello"],
      containsSubstrCI "xyz" e.2.original = false) ∧
    (find_lines_with_word (parse_lrc_file ["[0:00.02]hello"]) "xyz" = [] ∧
      runWordMode [true, false] ["[0:00.02]hello"] "xyz" "r" demoClips
        = ([true, false], [])) :=
  ⟨by decide,
   c6_absent_word_completes [true, false] ["[0:00.02]hello"] "xyz" "r" demoClips
     (by decide)⟩

/-! ### C7: line-mode replacement text -/

/-- A thirty-millisecond all-loud track for the line-mode run. -/
def loudTrack : List Bool := List.replicate 30 true

/-- C7: evaluation of the line-mode path at a concrete input.  With the single
line "[0:00.01]hello world", target "[0:00.01]" (line mode: the target is the
timestamp) and replacement "goodbye", the planner's `new_text` is
"hello world", not the supplied replacement: `calculate_ssml_replacement`
substitutes the literal target string - here the timestamp text, which never
occurs in the line text - so the line is left unchanged.  This contradicts the
script's own CLI help, which says the `--word` flag selects word replacement
"instead of the whole line". -/
theorem c7_line_mode_text :
    (runLineMode loudTrack ["[0:00.01]hello world"] "[0:00.01]" "goodbye" demoClips).map
        (fun r => (lookup 10 r.2).map (fun c => c.newText))
      = some (some "hello world") ∧
    "hello world" ≠ "goodbye" := by
  decide

/-! ### C8: non-matching input lines and the rewritten file -/

theorem lookup_isSome_of_mem_keys (k : Int) :
    ∀ (st : Store), k ∈ st.map Prod.fst → (lookup k st).isSome = true := by
  intro st
  induction st with
  | nil => intro h; cases h
  | cons e rest ih =>
    intro h
    by_cases he : e.1 = k
    · simp [lookup, he]
    · have : k ∈ rest.map Prod.fst := by
        rcases List.mem_cons.mp h with h1 | h1
        · exact absurd h1.symm he
        · exact h1
      simp [lookup, he, ih this]

theorem updateGo_length (sortedAll : List Int) (original lyrics : Store) :
    ∀ (l : List Int) (i : Nat) (shift : Int),
      (∀ tk ∈ l, (lookup tk original).isSome = true) →
      (updateGo sortedAll original lyrics l i shift).length = l.length := by
  intro l
  induction l with
  | nil => intro i shift _; rfl
  | cons tk rest ih =>
    intro i shift hall
    have hrest : ∀ tk2 ∈ rest, (lookup tk2 original).isSome = true :=
      fun tk2 hm => hall tk2 (List.mem_cons_of_mem tk hm)
    simp only [updateGo]
    cases hsel : lookup tk lyrics with
    | some c => simp [ih (i + 1) _ hrest]
    | none =>
      cases horig : lookup tk original with
      | some oc => simp [ih (i + 1) _ hrest]
      | none =>
        have := hall tk (List.mem_cons_self tk rest)
        rw [horig] at this
        cases this

/-- C8 (amended): input lines that do not match the timestamp grammar are
skipped on read and do NOT reappear in the rewritten output file: the output
holds exactly one line per parsed (grammar-matching) entry of the input, so a
skipped line is absent from it (see the counterexample for a concrete dropped
line). -/
theorem c8_skipped_lines_dropped (lines : List String) (lyrics : Store) :
    (update_lyrics_file (parse_lrc_file lines) lyrics).length
      = (parse_lrc_file lines).length := by
  unfold update_lyrics_file
  rw [updateGo_length]
  · unfold sortKeys
    rw [(List.perm_insertionSort _ _).length_eq, List.length_map]
  · intro tk hmem
    apply lookup_isSome_of_mem_keys
    exact (List.perm_insertionSort _ _).mem_iff.mp hmem

/-- C8 counterexample: the input file has a non-matching line "junk" followed
by one matching line; the claim says "junk" reappears verbatim in the output,
but the rewritten file consists of the single rewritten matching line, and no
output line even contains "junk" as a substring. -/
theorem c8_counterexample :
    update_lyrics_file (parse_lrc_file ["junk", "[0:00.01]a"]) [] = ["[0:0.1]a"] ∧
    (∀ out ∈ update_lyrics_file (parse_lrc_file ["junk", "[0:00.01]a"]) [],
      isInfixB "junk".data out.data = false) := by
  decide

/-! ### C9: the shape of formatted timestamps -/

/-- The formatter that the spec describes, zero-padding every field to two
digits; written from the spec's words only, to compare with the formatter
embedded from the source. -/
def specPaddedTimestamp (ms : Int) : String :=
  let pad2 : Int → String := fun n => if n < 10 then "0" ++ n.repr else n.repr
  "[" ++ pad2 (ms / 60000) ++ ":" ++ pad2 ((ms % 60000) / 1000)
    ++ "." ++ pad2 ((ms % 1000) / 10) ++ "]"

/-- C9 counterexample: at 5030 ms the source formatter emits "[0:5.3]" - one
digit per field, no zero padding - while the spec's padded formatter emits
"[00:05.03]". -/
theorem c9_counterexample :
    format_timestamp 5030 = "[0:5.3]" ∧ specPaddedTimestamp 5030 = "[00:05.03]" ∧
    format_timestamp 5030 ≠ specPaddedTimestamp 5030 := by
  decide

/-- C9 (amended): the formatter emits minutes, seconds and hundredths as plain
unpadded decimal values (a field below 10 occupies one digit, as the concrete
conjunct shows), and truncates - not rounds - sub-hundredth precision: its
output only depends on the input truncated to 10 ms resolution. -/
theorem c9_formatter_truncates (ms : Int) :
    format_timestamp ms = format_timestamp (10 * (ms / 10)) ∧
    format_timestamp 5030 = "[0:5.3]" := by
  constructor
  · unfold format_timestamp
    have h1 : (10 * (ms / 10)) / 60000 = ms / 60000 := by omega
    have h2 : ((10 * (ms / 10)) % 60000) / 1000 = (ms % 60000) / 1000 := by omega
    have h3 : ((10 * (ms / 10)) % 1000) / 10 = (ms % 1000) / 10 := by omega
    rw [h1, h2, h3]
  · decide


/-! ### C10: duplicate time keys in the input file -/

/-- The stored text contributed by one input line under key `k`: the stripped
group-4 text when the line matches the grammar and its parsed time key is `k`. -/
def lrcTextOfLine (k : Int) (L : String) : Option String :=
  match matchLRC L.data with
  | some (m, s, f, txt) =>
    if timestampFloatMs m s f = k then some ((⟨strip txt⟩ : String)) else none
  | none => none

/-- All texts of grammar-matching input lines whose time key is `k`, in file
order. -/
def lrcTextsAt (lines : List String) (k : Int) : List String :=
  lines.filterMap (lrcTextOfLine k)

theorem parse_fold_lookup (k : Int) :
    ∀ (lines : List String) (st : Store) (c : LineContent),
      lookup k (List.foldl parseLine st lines) = some c →
      (lrcTextsAt lines k).getLast? = some c.original ∨
      (lrcTextsAt lines k = [] ∧ lookup k st = some c) := by
  intro lines
  induction lines with
  | nil => intro st c h; exact Or.inr ⟨rfl, h⟩
  | cons L rest ih =>
    intro st c h
    rw [List.foldl_cons] at h
    rcases ih (parseLine st L) c h with h1 | ⟨hemp, hlk⟩
    · left
      cases hfa : lrcTextOfLine k L with
      | none =>
        rw [show lrcTextsAt (L :: rest) k = lrcTextsAt rest k by
          simp [lrcTextsAt, List.filterMap_cons, hfa]]
        exact h1
      | some txt =>
        rw [show lrcTextsAt (L :: rest) k = txt :: lrcTextsAt rest k by
          simp [lrcTextsAt, List.filterMap_cons, hfa]]
        cases hr : lrcTextsAt rest k with
        | nil => rw [hr] at h1; cases h1
        | cons t2 ts => rw [hr] at h1; rw [List.getLast?_cons_cons]; exact h1
    · cases hm : matchLRC L.data with
      | none =>
        have hstep : parseLine st L = st := by
          unfold parseLine
          rw [hm]
        have hfa : lrcTextOfLine k L = none := by
          simp [lrcTextOfLine, hm]
        right
        constructor
        · rw [show lrcTextsAt (L :: rest) k = lrcTextsAt rest k by
            simp [lrcTextsAt, List.filterMap_cons, hfa]]
          exact hemp
        · rw [hstep] at hlk
          exact hlk
      | some quad =>
        obtain ⟨m, s, f, txt⟩ := quad
        have hstep : parseLine st L
            = upsert (timestampFloatMs m s f) { original := (⟨strip txt⟩ : String) } st := by
          unfold parseLine
          rw [hm]
        rw [hstep] at hlk
        by_cases hk : timestampFloatMs m s f = k
        · left
          have hfa : lrcTextOfLine k L = some ((⟨strip txt⟩ : String)) := by
            simp [lrcTextOfLine, hm, hk]
          rw [show lrcTextsAt (L :: rest) k
              = (⟨strip txt⟩ : String) :: lrcTextsAt rest k by
            simp [lrcTextsAt, List.filterMap_cons, hfa]]
          rw [hemp]
          rw [hk] at hlk
          rw [lookup_upsert_self] at hlk
          have hc : c = { original := (⟨strip txt⟩ : String) } :=
            (Option.some_inj.mp hlk).symm
          rw [hc]
          simp
        · right
          have hfa : lrcTextOfLine k L = none := by
            simp [lrcTextOfLine, hm, hk]
          constructor
          · rw [show lrcTextsAt (L :: rest) k = lrcTextsAt rest k by
              simp [lrcTextsAt, List.filterMap_cons, hfa]]
            exact hemp
          · rw [lookup_upsert_ne k _ _ st hk] at hlk
            exact hlk

theorem keys_upsert (k : Int) (v : LineContent) :
    ∀ st : Store, (upsert k v st).map Prod.fst
      = if k ∈ st.map Prod.fst then st.map Prod.fst else st.map Prod.fst ++ [k] := by
  intro st
  induction st with
  | nil => simp [upsert]
  | cons e rest ih =>
    by_cases he : e.1 = k
    · rw [show upsert k v (e :: rest) = (e.1, v) :: rest by simp [upsert, he]]
      rw [if_pos (by rw [List.map_cons]; exact he ▸ List.mem_cons_self _ _)]
      rfl
    · rw [show upsert k v (e :: rest) = e :: upsert k v rest by simp [upsert, he]]
      rw [List.map_cons, List.map_cons, ih]
      by_cases hk : k ∈ rest.map Prod.fst
      · rw [if_pos hk, if_pos (List.mem_cons_of_mem _ hk)]
      · rw [if_neg hk, if_neg (by
          intro hcon
          rcases List.mem_cons.mp hcon with h1 | h1
          · exact he h1.symm
          · exact hk h1), List.cons_append]

theorem nodup_upsert (k : Int) (v : LineContent) (st : Store)
    (h : (st.map Prod.fst).Nodup) : ((upsert k v st).map Prod.fst).Nodup := by
  rw [keys_upsert]
  by_cases hk : k ∈ st.map Prod.fst
  · rw [if_pos hk]
    exact h
  · rw [if_neg hk]
    exact ((List.perm_append_singleton _ _).nodup_iff).mpr (List.nodup_cons.mpr ⟨hk, h⟩)

theorem parse_nodup (lines : List String) :
    ((parse_lrc_file lines).map Prod.fst).Nodup := by
  unfold parse_lrc_file
  have main : ∀ (ls : List String) (st : Store), (st.map Prod.fst).Nodup →
      ((List.foldl parseLine st ls).map Prod.fst).Nodup := by
    intro ls
    induction ls with
    | nil => intro st h; exact h
    | cons L rest ih =>
      intro st h
      rw [List.foldl_cons]
      refine ih _ ?_
      unfold parseLine
      cases hm : matchLRC L.data with
      | none => exact h
      | some quad => exact nodup_upsert _ _ st h
  exact main lines [] (by simp)

/-- C10: for every input lyric file, a key present in the parsed store holds
exactly the text of the LAST grammar-matching line with that time key (earlier
lines with the same key are overwritten by the dict assignment and silently
discarded), and the store's keys are duplicate-free, so exactly one entry per
time key reaches all downstream processing and the rewritten output file. -/
theorem c10_last_duplicate_wins (lines : List String) (k : Int) (c : LineContent)
    (h : lookup k (parse_lrc_file lines) = some c) :
    (lrcTextsAt lines k).getLast? = some c.original ∧
    ((parse_lrc_file lines).map Prod.fst).Nodup := by
  constructor
  · rcases parse_fold_lookup k lines [] c h with h1 | ⟨_, hlk⟩
    · exact h1
    · cases hlk
  · exact parse_nodup lines

/-- Witness for C10 at a concrete input. -/
theorem c10_last_duplicate_wins_witness :
    lookup 10 (parse_lrc_file ["[0:00.01]first", "[0:00.01]second"])
      = some { original := "second" } ∧
    ((lrcTextsAt ["[0:00.01]first", "[0:00.01]second"] 10).getLast?
        = some ({ original := "second" } : LineContent).original ∧
      ((parse_lrc_file ["[0:00.01]first", "[0:00.01]second"]).map Prod.fst).Nodup) :=
  ⟨by decide,
   c10_last_duplicate_wins ["[0:00.01]first", "[0:00.01]second"] 10
     { original := "second" } (by decide)⟩
